import Mathlib

/-!
Verification of organize-pdf (src/organize.py) against its specification.

The program deduplicates and reorders the pages of each PDF in a directory:
for every page it extracts a printed page-number label from the page text
(`get_real_page_num`, lines 56-65), inserts label -> page-index into a Python
`OrderedDict` (last write wins, insertion order kept, lines 79-83), and then
writes the surviving pages in the dict's iteration order (lines 84-88).

The embedding below models
  - a page by the text extracted from it (a `String`), a source document by
    the list of its page texts (`List String`), and a page handle by its
    zero-based index (`Nat`);
  - Python `str.splitlines` / `str.split` by explicit recursions over the
    character list (line boundaries restricted to LF);
  - a raised, uncaught Python exception by `Except.error` with the
    exception's name as the message, threaded through every caller;
  - the `OrderedDict` by an association list `List (String × Nat)` with the
    update-in-place-or-append operation `odInsert`;
  - the terminal by a `Term` state (screen lines, cursor row and column) and
    the ANSI escapes used by `Logger.log` by explicit state transformers;
  - the external `multiprocessing.Pool(n)` constructor by its CPython
    semantics: it raises `ValueError` when `n < 1`.
-/

/-- Python `str.split(sep)` for a one-character separator, on character
lists: always returns at least one (possibly empty) group, so that
`split` of the empty list is `[[]]` like Python's `"".split(sep) == [""]`. -/
def splitListOn (c : Char) : List Char → List (List Char)
  | [] => [[]]
  | x :: xs =>
    match splitListOn c xs with
    | [] => [[]]
    | g :: gs => if x = c then [] :: g :: gs else (x :: g) :: gs

/-- Python `str.splitlines` on character lists, restricted to LF newlines
(the only line boundary in the texts this program reads): a boundary
terminates a line, a trailing boundary does not produce a trailing empty
line, and the empty text has no lines at all. -/
def pySplitlinesList : List Char → List (List Char)
  | [] => []
  | c :: xs =>
    if c = '\n' then [] :: pySplitlinesList xs
    else
      match pySplitlinesList xs with
      | [] => [[c]]
      | g :: gs => (c :: g) :: gs

/-- Python `text.splitlines()` on strings. -/
def splitlines (s : String) : List String :=
  (pySplitlinesList s.data).map String.mk

/-- Python `s.split(c)` on strings, one-character separator. -/
def pySplit (s : String) (c : Char) : List String :=
  (splitListOn c s.data).map String.mk

/-- Lines 62-65 of src/organize.py applied to the text extracted from one
page: `text.splitlines()[-1].split("/")[0]`. Indexing `[-1]` into the empty
line list raises `IndexError`; `split` never returns an empty list, so the
`[0]` of the second branch cannot fail. -/
def extractLabel (text : String) : Except String String :=
  match (splitlines text).getLast? with
  | none => Except.error ("IndexError")
  | some lastLine =>
    match pySplit lastLine '/' with
    | [] => Except.error ("IndexError")
    | p :: _ => Except.ok p

/-- `get_real_page_num(pdf, page_num)` (lines 56-65): fetch the page, extract
its text, and read the printed label off the last text line. The document is
modelled by the list of its page texts. -/
def get_real_page_num (pdf : List String) (i : Nat) : Except String String :=
  match pdf[i]? with
  | none => Except.error ("IndexError")
  | some text => extractLabel text

/-- One `pages[page_num] = i` update of the `OrderedDict` (line 83): if the
key is already present, every entry holding it is overwritten in place (a
Python dict holds it at most once) and the iteration order is unchanged;
otherwise the new entry is appended at the end of the iteration order. -/
def odInsert (m : List (String × Nat)) (k : String) (v : Nat) : List (String × Nat) :=
  if k ∈ m.map Prod.fst then
    m.map (fun q => if q.1 = k then (k, v) else q)
  else m ++ [(k, v)]

/-- The loop body of lines 80-83 as a fold step. -/
def odStep (m : List (String × Nat)) (q : String × Nat) : List (String × Nat) :=
  odInsert m q.1 q.2

/-- The `OrderedDict` produced by the loop of lines 80-83, given the already
extracted (label, page-index) pairs in page order. -/
def buildPages (input : List (String × Nat)) : List (String × Nat) :=
  input.foldl odStep []

/-- The spec's `reorder`: the page indices the writer receives in lines
84-85, i.e. the dict's values in iteration order. -/
def reorder (input : List (String × Nat)) : List Nat :=
  (buildPages input).map Prod.snd

/-- The extraction loop of lines 80-83: labels are extracted page by page in
original order and paired with the page index; an uncaught exception from
`get_real_page_num` aborts the whole loop (there is no try/except). `i` is
the index of the first page of `texts` within the document. -/
def labelPairs : List String → Nat → Except String (List (String × Nat))
  | [], _ => Except.ok []
  | t :: rest, i =>
    match extractLabel t with
    | Except.error e => Except.error e
    | Except.ok l =>
      match labelPairs rest (i + 1) with
      | Except.error e => Except.error e
      | Except.ok ps => Except.ok ((l, i) :: ps)

/-- Lines 78-88: the pages the writer holds when the output file is written,
as source page indices in output order. Errors from extraction propagate. -/
def organizePages (pdf : List String) : Except String (List Nat) :=
  match labelPairs pdf 0 with
  | Except.error e => Except.error e
  | Except.ok ps => Except.ok ((buildPages ps).map Prod.snd)

/-- Python's true division on integers: raises `ZeroDivisionError` on a zero
denominator, otherwise yields the exact rational. -/
def pyDiv (a b : Int) : Except String ℚ :=
  if b = 0 then Except.error ("ZeroDivisionError")
  else Except.ok ((a : ℚ) / (b : ℚ))

/-- `organize_file` for one document (lines 68-90): build the dict and the
writer page list (lines 78-85), write the output file (lines 86-88), then
log the completion line whose f-string computes
`(num_pages - new_num_pages) / num_pages * 100` (line 90); that division
raises `ZeroDivisionError` on a zero-page document, after the output file
has already been written. The returned value is the written page list. -/
def organize_file (pdf : List String) : Except String (List Nat) :=
  match organizePages pdf with
  | Except.error e => Except.error e
  | Except.ok pages =>
    match pyDiv ((pdf.length : Int) - (pages.length : Int)) (pdf.length : Int) with
    | Except.error e => Except.error e
    | Except.ok _ => Except.ok pages

/-- A directory entry as seen by `os.listdir` + `os.path.isfile` (line 104). -/
structure DirEntry where
  name : String
  isFile : Bool

/-- `f.endswith(".pdf")` of line 104. -/
def hasPdfExt (name : String) : Bool :=
  (".pdf").data.isSuffixOf name.data

/-- Line 104: keep the regular files whose name ends in `.pdf`. -/
def list_pdf_files (entries : List DirEntry) : List String :=
  (entries.filter (fun e => e.isFile && hasPdfExt e.name)).map DirEntry.name

/-- One insertion step of a stable insertion sort, modelling Python
`sorted` on file names (line 108). -/
def insertSorted (s : String) : List String → List String
  | [] => [s]
  | x :: xs => if s ≤ x then s :: x :: xs else x :: insertSorted s xs

/-- Python `sorted(files)` (line 108). -/
def sortFiles (l : List String) : List String :=
  l.foldr insertSorted []

/-- The `multiprocessing.Pool(processes)` constructor (line 107), an external
CPython dependency: `Pool.__init__` raises
`ValueError("Number of processes must be at least 1")` whenever the
requested process count is below one, before any worker starts. -/
def Pool_create (processes : Nat) : Except String Unit :=
  if processes < 1 then
    Except.error ("ValueError: Number of processes must be at least 1")
  else Except.ok ()

/-- `p.map(organize_file, ...)` (line 108): the workers run `organize_file`
on each file, and the first uncaught worker exception is re-raised in the
parent by `Pool.map`. `contents` gives each file's page texts. -/
def runWorkers (contents : String → List String) : List String → Except String (List (List Nat))
  | [] => Except.ok []
  | f :: rest =>
    match organize_file (contents f) with
    | Except.error e => Except.error e
    | Except.ok pages =>
      match runWorkers contents rest with
      | Except.error e => Except.error e
      | Except.ok others => Except.ok (pages :: others)

/-- The `__main__` block, lines 101-108, after argument parsing: discover the
eligible files, build the `Logger` (terminal output only, cannot fail),
construct the pool sized to the file count, and run one worker per file on
the sorted file list. -/
def main_batch (entries : List DirEntry) (contents : String → List String) :
    Except String (List (List Nat)) :=
  let files := list_pdf_files entries
  match Pool_create files.length with
  | Except.error e => Except.error e
  | Except.ok _ => runWorkers contents (sortFiles files)

/-- A terminal: the screen rows (top first), and the cursor position. The
screen is assumed wide enough that no message wraps. -/
structure Term where
  lines : List String
  row : Nat
  col : Nat

/-- The escape `ESC[nF` printed at line 26: cursor up `n` rows, to column 0
(clamped at the top of the screen, as `Nat` subtraction is). -/
def cursorPrevLine (n : Nat) (t : Term) : Term :=
  Term.mk t.lines (t.row - n) 0

/-- The escape `ESC[2K` printed at line 27: erase the entire current row,
leaving the cursor where it is. -/
def eraseLine (t : Term) : Term :=
  Term.mk (t.lines.set t.row ("")) t.row t.col

/-- Overwriting `msg` into `line` starting at column `col`: the line is
padded with blanks up to the cursor if needed, the covered characters are
replaced, and the rest of the line is kept. -/
def overwriteAt (line : String) (col : Nat) (msg : String) : String :=
  String.mk
    (((line.data ++ List.replicate (col - line.data.length) ' ').take col)
      ++ msg.data
      ++ ((line.data ++ List.replicate (col - line.data.length) ' ').drop (col + msg.data.length)))

/-- `print(msg, end="")` of line 28 for a message without control
characters: overwrite at the cursor and advance the column. -/
def printText (msg : String) (t : Term) : Term :=
  Term.mk (t.lines.set t.row (overwriteAt (t.lines.getD t.row ("")) t.col msg)) t.row
    (t.col + msg.length)

/-- The escape `ESC[nE` printed at line 29: cursor down `n` rows, to
column 0. -/
def cursorNextLine (n : Nat) (t : Term) : Term :=
  Term.mk t.lines (t.row + n) 0

/-- `Logger.log(line, msg)` (lines 20-29) on a terminal state: with
`n = num - line`, move up `n` rows to column 0, erase that row, print the
message there, and move back down `n` rows to column 0. -/
def Logger.log (num : Nat) (line : Nat) (msg : String) (t : Term) : Term :=
  cursorNextLine (num - line) (printText msg (eraseLine (cursorPrevLine (num - line) t)))

/-- Distinct elements of a list in order of first occurrence: the iteration
order of the keys ever inserted into an insertion-ordered dict. -/
def dedupFirst : List String → List String
  | [] => []
  | k :: rest => k :: dedupFirst (rest.filter (fun x => x ≠ k))
termination_by l => l.length
decreasing_by
  simp only [List.length_cons]
  exact Nat.lt_succ_of_le (List.length_filter_le _ _)

/-- First-match choice between two optional results. -/
def orElseO (a b : Option (String × Nat)) : Option (String × Nat) :=
  match a with
  | some x => some x
  | none => b


/-! ## Lemmas about the string primitives -/

theorem splitListOn_ne_nil (c : Char) (l : List Char) : splitListOn c l ≠ [] := by
  cases l with
  | nil => simp [splitListOn]
  | cons x xs =>
    simp only [splitListOn]
    split
    · simp
    · split <;> simp

theorem head?_splitListOn (c : Char) (l : List Char) :
    (splitListOn c l).head? = some (l.takeWhile (fun x => x ≠ c)) := by
  induction l with
  | nil => simp [splitListOn]
  | cons x xs ih =>
    simp only [splitListOn]
    cases hx : splitListOn c xs with
    | nil => exact absurd hx (splitListOn_ne_nil c xs)
    | cons g gs =>
      rw [hx] at ih
      simp only [List.head?] at ih
      by_cases hxc : x = c
      · simp [hxc, List.takeWhile]
      · simp only [List.takeWhile, hxc, if_neg hxc, decide_not]
        simp at ih
        simp [hxc, ih]

theorem splitListOn_of_forall_ne (c : Char) (l : List Char) (h : ∀ x ∈ l, x ≠ c) :
    splitListOn c l = [l] := by
  induction l with
  | nil => simp [splitListOn]
  | cons x xs ih =>
    have hx : x ≠ c := h x (by simp)
    have hrest : ∀ y ∈ xs, y ≠ c := fun y hy => h y (List.mem_cons_of_mem x hy)
    simp only [splitListOn, ih hrest]
    simp [hx]

theorem pySplitlinesList_eq_nil_iff (l : List Char) : pySplitlinesList l = [] ↔ l = [] := by
  cases l with
  | nil => simp [pySplitlinesList]
  | cons c xs =>
    simp only [pySplitlinesList]
    constructor
    · intro h
      exfalso
      revert h
      split
      · simp
      · split <;> simp
    · intro h
      exact absurd h (by simp)

theorem String.mk_data (s : String) : String.mk s.data = s := rfl

theorem String.data_eq_nil_iff (s : String) : s.data = [] ↔ s = ("" : String) := by
  obtain ⟨d⟩ := s
  constructor
  · intro h
    have hd : d = ([] : List Char) := h
    subst hd
    rfl
  · intro h
    rw [h]

theorem splitlines_eq_nil_iff (s : String) : splitlines s = [] ↔ s = ("" : String) := by
  rw [splitlines, List.map_eq_nil_iff, pySplitlinesList_eq_nil_iff, String.data_eq_nil_iff]

/-! ## Lemmas about the label extractor -/

theorem extractLabel_of_getLast (text lastLine : String)
    (h : (splitlines text).getLast? = some lastLine) :
    extractLabel text = Except.ok (String.mk (lastLine.data.takeWhile (fun ch => ch ≠ '/'))) := by
  cases hs : pySplit lastLine '/' with
  | nil =>
    exfalso
    have := splitListOn_ne_nil '/' lastLine.data
    rw [pySplit] at hs
    exact this (List.map_eq_nil_iff.mp hs)
  | cons p ps =>
    have hh : (pySplit lastLine '/').head? = some (String.mk (lastLine.data.takeWhile (fun ch => ch ≠ '/'))) := by
      rw [pySplit, List.head?_map, head?_splitListOn]
      rfl
    rw [hs] at hh
    simp only [List.head?] at hh
    simp only [Option.some.injEq] at hh
    simp only [decide_not] at hh
    simp [extractLabel, h, hs, hh]

theorem extractLabel_error_iff (text : String) :
    (∃ e, extractLabel text = Except.error e) ↔ text = ("" : String) := by
  constructor
  · intro ⟨e, he⟩
    cases hl : (splitlines text).getLast? with
    | some lastLine =>
      rw [extractLabel_of_getLast text lastLine hl] at he
      exact absurd he (by simp)
    | none =>
      rw [← splitlines_eq_nil_iff]
      exact List.getLast?_eq_none_iff.mp hl
  · intro h
    subst h
    exact ⟨("IndexError"), rfl⟩

/-! ## Lemmas about first-occurrence deduplication -/

theorem mem_dedupFirst (l : List String) (a : String) : a ∈ dedupFirst l ↔ a ∈ l := by
  induction l using dedupFirst.induct with
  | case1 => simp [dedupFirst]
  | case2 k rest ih =>
    simp only [dedupFirst, List.mem_cons, ih, List.mem_filter]
    by_cases hak : a = k
    · simp [hak]
    · simp [hak]

theorem nodup_dedupFirst (l : List String) : (dedupFirst l).Nodup := by
  induction l using dedupFirst.induct with
  | case1 => simp [dedupFirst]
  | case2 k rest ih =>
    simp only [dedupFirst, List.nodup_cons]
    refine ⟨?_, ih⟩
    intro hk
    rw [mem_dedupFirst] at hk
    have := (List.mem_filter.mp hk).2
    simp at this

theorem length_dedupFirst_le (l : List String) : (dedupFirst l).length ≤ l.length := by
  induction l using dedupFirst.induct with
  | case1 => simp [dedupFirst]
  | case2 k rest ih =>
    simp only [dedupFirst, List.length_cons]
    exact Nat.succ_le_succ (ih.trans (List.length_filter_le _ _))

theorem toFinset_dedupFirst (l : List String) : (dedupFirst l).toFinset = l.toFinset := by
  ext a
  simp [List.mem_toFinset, mem_dedupFirst]

theorem length_dedupFirst (l : List String) : (dedupFirst l).length = l.toFinset.card := by
  rw [← toFinset_dedupFirst]
  exact (List.toFinset_card_of_nodup (nodup_dedupFirst l)).symm

/-! ## The iteration order of the dict is first-occurrence order -/

theorem map_fst_odInsert (m : List (String × Nat)) (k : String) (v : Nat) :
    (odInsert m k v).map Prod.fst
      = if k ∈ m.map Prod.fst then m.map Prod.fst else m.map Prod.fst ++ [k] := by
  unfold odInsert
  split
  · simp only [if_pos ‹k ∈ m.map Prod.fst›, List.map_map]
    apply List.map_congr_left
    intro q _
    by_cases hq : q.1 = k
    · simp [Function.comp, hq]
    · simp [Function.comp, hq]
  · simp [if_neg ‹¬ k ∈ m.map Prod.fst›]

theorem keys_foldl (input : List (String × Nat)) (m : List (String × Nat)) :
    (input.foldl odStep m).map Prod.fst
      = m.map Prod.fst
          ++ dedupFirst ((input.map Prod.fst).filter (fun k => k ∉ m.map Prod.fst)) := by
  induction input generalizing m with
  | nil => simp [dedupFirst]
  | cons q rest ih =>
    simp only [List.foldl_cons, List.map_cons]
    by_cases hq : q.1 ∈ m.map Prod.fst
    · have hkeys : (odStep m q).map Prod.fst = m.map Prod.fst := by
        rw [odStep, map_fst_odInsert, if_pos hq]
      rw [ih (odStep m q), hkeys]
      have hfil :
          (q.1 :: rest.map Prod.fst).filter (fun k => k ∉ m.map Prod.fst)
            = (rest.map Prod.fst).filter (fun k => k ∉ m.map Prod.fst) := by
        rw [List.filter_cons]
        simp [hq]
      rw [hfil]
    · have hkeys : (odStep m q).map Prod.fst = m.map Prod.fst ++ [q.1] := by
        rw [odStep, map_fst_odInsert, if_neg hq]
      rw [ih (odStep m q), hkeys]
      have hfil :
          (q.1 :: rest.map Prod.fst).filter (fun k => k ∉ m.map Prod.fst)
            = q.1 :: (rest.map Prod.fst).filter (fun k => k ∉ m.map Prod.fst) := by
        rw [List.filter_cons]
        simp [hq]
      rw [hfil]
      have hstep :
          dedupFirst (q.1 :: (rest.map Prod.fst).filter (fun k => k ∉ m.map Prod.fst))
            = q.1 ::
                dedupFirst
                  (((rest.map Prod.fst).filter (fun k => k ∉ m.map Prod.fst)).filter
                    (fun x => x ≠ q.1)) := by
        simp [dedupFirst]
      rw [hstep]
      have hff :
          ((rest.map Prod.fst).filter (fun k => k ∉ m.map Prod.fst)).filter (fun x => x ≠ q.1)
            = (rest.map Prod.fst).filter (fun k => k ∉ (m.map Prod.fst ++ [q.1])) := by
        rw [List.filter_filter]
        apply List.filter_congr
        intro a _
        by_cases ham : a ∈ m.map Prod.fst
        · simp [ham]
        · by_cases haq : a = q.1
          · simp [ham, haq]
          · simp [ham, haq]
      rw [hff]
      simp [List.append_assoc]

theorem keys_buildPages (input : List (String × Nat)) :
    (buildPages input).map Prod.fst = dedupFirst (input.map Prod.fst) := by
  have h := keys_foldl input []
  simpa using h

/-! ## The value surviving for a key is the last one written -/

theorem find?_append_pairs (l₁ l₂ : List (String × Nat)) (p : String × Nat → Bool) :
    (l₁ ++ l₂).find? p = orElseO (l₁.find? p) (l₂.find? p) := by
  induction l₁ with
  | nil => simp [orElseO]
  | cons a l ih =>
    by_cases h : p a
    · simp [List.find?, h, orElseO]
    · simp only [List.cons_append, List.find?]
      rw [Bool.not_eq_true] at h
      rw [h]
      exact ih

theorem orElseO_none (a : Option (String × Nat)) : orElseO a none = a := by
  cases a <;> simp [orElseO]

theorem find?_update_self (m : List (String × Nat)) (k : String) (v : Nat)
    (h : k ∈ m.map Prod.fst) :
    (m.map (fun q => if q.1 = k then (k, v) else q)).find? (fun q => q.1 == k)
      = some (k, v) := by
  induction m with
  | nil => simp at h
  | cons q m ih =>
    by_cases hq : q.1 = k
    · simp [List.find?, hq]
    · have h' : k ∈ m.map Prod.fst := by
        rcases List.mem_cons.mp h with h1 | h1
        · exact absurd h1.symm hq
        · exact h1
      simp only [List.map_cons, List.find?, if_neg hq]
      have : (q.1 == k) = false := by simp [hq]
      rw [this]
      exact ih h'

theorem find?_update_ne (m : List (String × Nat)) (k : String) (v : Nat) (l : String)
    (hne : k ≠ l) :
    (m.map (fun q => if q.1 = k then (k, v) else q)).find? (fun q => q.1 == l)
      = m.find? (fun q => q.1 == l) := by
  induction m with
  | nil => simp
  | cons q m ih =>
    by_cases hq : q.1 = k
    · have h1 : (k == l) = false := by simp [hne]
      have h2 : (q.1 == l) = false := by simp [hq, hne]
      simp only [List.map_cons, List.find?, if_pos hq]
      rw [h1, h2]
      exact ih
    · simp only [List.map_cons, List.find?, if_neg hq]
      by_cases hql : q.1 = l
      · simp [hql]
      · have h2 : (q.1 == l) = false := by simp [hql]
        rw [h2]
        exact ih

theorem find?_none_of_not_mem (m : List (String × Nat)) (l : String)
    (h : l ∉ m.map Prod.fst) :
    m.find? (fun q => q.1 == l) = none := by
  rw [List.find?_eq_none]
  intro q hq
  simp only [beq_iff_eq]
  intro hql
  exact h (hql ▸ List.mem_map_of_mem Prod.fst hq)

theorem find?_odInsert_self (m : List (String × Nat)) (k : String) (v : Nat) :
    (odInsert m k v).find? (fun q => q.1 == k) = some (k, v) := by
  unfold odInsert
  split
  · exact find?_update_self m k v ‹k ∈ m.map Prod.fst›
  · rw [find?_append_pairs, find?_none_of_not_mem m k ‹¬ k ∈ m.map Prod.fst›]
    simp [List.find?, orElseO]

theorem find?_odInsert_ne (m : List (String × Nat)) (k : String) (v : Nat) (l : String)
    (hne : k ≠ l) :
    (odInsert m k v).find? (fun q => q.1 == l) = m.find? (fun q => q.1 == l) := by
  unfold odInsert
  split
  · exact find?_update_ne m k v l hne
  · rw [find?_append_pairs]
    have h1 : (k == l) = false := by simp [hne]
    simp [List.find?, h1, orElseO_none]

theorem find?_foldl (input : List (String × Nat)) (m : List (String × Nat)) (l : String) :
    (input.foldl odStep m).find? (fun q => q.1 == l)
      = orElseO (input.reverse.find? (fun q => q.1 == l)) (m.find? (fun q => q.1 == l)) := by
  induction input generalizing m with
  | nil => simp [orElseO]
  | cons q rest ih =>
    simp only [List.foldl_cons, List.reverse_cons]
    rw [ih (odStep m q), find?_append_pairs]
    cases hfr : rest.reverse.find? (fun q => q.1 == l) with
    | some p => simp [orElseO]
    | none =>
      simp only [orElseO]
      by_cases hkl : q.1 = l
      · have hb : (q.1 == l) = true := by simp [hkl]
        simp only [List.find?, hb]
        rw [odStep, show q.1 = l from hkl]
        have := find?_odInsert_self m l q.2
        rw [this]
        simp [← hkl]
      · have hb : (q.1 == l) = false := by simp [hkl]
        simp only [List.find?, hb]
        rw [odStep]
        exact find?_odInsert_ne m q.1 q.2 l hkl

theorem find?_buildPages (input : List (String × Nat)) (l : String) :
    (buildPages input).find? (fun q => q.1 == l)
      = input.reverse.find? (fun q => q.1 == l) := by
  rw [buildPages, find?_foldl]
  simp [orElseO_none]

/-! ## Counting, positions, idempotence -/

theorem countP_buildPages (input : List (String × Nat)) (l : String)
    (h : l ∈ input.map Prod.fst) :
    (buildPages input).countP (fun q => q.1 == l) = 1 := by
  have hmap : (buildPages input).countP (fun q => q.1 == l)
      = ((buildPages input).map Prod.fst).countP (fun k => k == l) := by
    rw [List.countP_map]
    rfl
  rw [hmap, keys_buildPages]
  have hmem : l ∈ dedupFirst (input.map Prod.fst) := (mem_dedupFirst _ l).mpr h
  have hcount : (dedupFirst (input.map Prod.fst)).count l = 1 :=
    List.count_eq_one_of_mem (nodup_dedupFirst _) hmem
  simpa [List.count] using hcount

theorem takeWhile_filter_comm (rest : List String) (k l : String) (hkl : l ≠ k) :
    ((rest.filter (fun x => x ≠ k)).takeWhile (fun x => x ≠ l))
      = ((rest.takeWhile (fun x => x ≠ l)).filter (fun x => x ≠ k)) := by
  induction rest with
  | nil => simp
  | cons x xs ih =>
    simp only [decide_not] at ih
    by_cases hxl : x = l
    · subst hxl
      have hk : x ≠ k := hkl
      simp [List.filter_cons, List.takeWhile_cons, hk]
    · by_cases hxk : x = k
      · subst hxk
        simp [List.filter_cons, List.takeWhile_cons, hxl, ih]
      · simp [List.filter_cons, List.takeWhile_cons, hxl, hxk, ih]

theorem indexOf_dedupFirst (ks : List String) (l : String) :
    l ∈ ks →
      (dedupFirst ks).indexOf l
        = (dedupFirst (ks.takeWhile (fun x => x ≠ l))).length := by
  induction ks using dedupFirst.induct with
  | case1 => intro h; simp at h
  | case2 k rest ih =>
    intro h
    by_cases hk : k = l
    · subst hk
      simp [dedupFirst, List.takeWhile_cons, List.indexOf_cons_self]
    · have hl : l ∈ rest := by
        rcases List.mem_cons.mp h with h1 | h1
        · exact absurd h1.symm hk
        · exact h1
      have hlk : l ≠ k := fun hc => hk hc.symm
      have hlf : l ∈ rest.filter (fun x => x ≠ k) :=
        List.mem_filter.mpr ⟨hl, by simp [hlk]⟩
      have hidx := ih hlf
      simp only [dedupFirst, List.takeWhile_cons]
      have hkb : (decide ¬ (k = l)) = true := by simp [hk]
      rw [List.indexOf_cons_ne _ (by simpa using hk)]
      simp only [hkb, if_true]
      have hstep :
          dedupFirst (k :: rest.takeWhile (fun x => x ≠ l))
            = k :: dedupFirst ((rest.takeWhile (fun x => x ≠ l)).filter (fun x => x ≠ k)) := by
        simp [dedupFirst]
      rw [hstep, List.length_cons]
      rw [hidx, takeWhile_filter_comm rest k l hlk]

theorem foldl_odStep_fresh (ps : List (String × Nat)) :
    ∀ m : List (String × Nat),
      (ps.map Prod.fst).Nodup →
      (∀ k ∈ ps.map Prod.fst, k ∉ m.map Prod.fst) →
      ps.foldl odStep m = m ++ ps := by
  induction ps with
  | nil =>
    intro m _ _
    simp
  | cons q rest ih =>
    intro m hnd hdisj
    simp only [List.foldl_cons]
    have hk : q.1 ∉ m.map Prod.fst := hdisj q.1 (by simp)
    have hins : odStep m q = m ++ [(q.1, q.2)] := by
      rw [odStep, odInsert, if_neg hk]
    rw [hins]
    have hnd' : (rest.map Prod.fst).Nodup := (List.nodup_cons.mp (by simpa using hnd)).2
    have hhd : q.1 ∉ rest.map Prod.fst := (List.nodup_cons.mp (by simpa using hnd)).1
    have hdisj' : ∀ k ∈ rest.map Prod.fst, k ∉ (m ++ [(q.1, q.2)]).map Prod.fst := by
      intro k hkrest
      simp only [List.map_append, List.mem_append, List.map_cons, List.map_nil,
        List.mem_singleton, not_or]
      constructor
      · exact hdisj k (by simp [hkrest])
      · intro hc
        exact hhd (hc ▸ hkrest)
    rw [ih (m ++ [(q.1, q.2)]) hnd' hdisj']
    simp

theorem nodup_keys_buildPages (input : List (String × Nat)) :
    ((buildPages input).map Prod.fst).Nodup := by
  rw [keys_buildPages]
  exact nodup_dedupFirst _

theorem buildPages_fixed (input : List (String × Nat)) :
    buildPages (buildPages input) = buildPages input := by
  have h := foldl_odStep_fresh (buildPages input) [] (nodup_keys_buildPages input) (by simp)
  simpa [buildPages] using h

/-! ## Error propagation of the extraction loop -/

theorem labelPairs_error_iff (pdf : List String) :
    ∀ i, (∃ e, labelPairs pdf i = Except.error e) ↔ ("" : String) ∈ pdf := by
  induction pdf with
  | nil =>
    intro i
    simp [labelPairs]
  | cons t rest ih =>
    intro i
    by_cases ht : t = ("" : String)
    · subst ht
      have he : extractLabel ("") = Except.error ("IndexError") := rfl
      simp only [labelPairs, he]
      constructor
      · intro _
        exact List.mem_cons_self _ _
      · intro _
        exact ⟨("IndexError"), rfl⟩
    · obtain ⟨lres, hok⟩ : ∃ lres, extractLabel t = Except.ok lres := by
        cases hres : extractLabel t with
        | error e =>
          exact absurd ((extractLabel_error_iff t).mp ⟨e, hres⟩) ht
        | ok lres => exact ⟨lres, rfl⟩
      simp only [labelPairs, hok]
      cases hrest : labelPairs rest (i + 1) with
      | error e =>
        have hmem : ("" : String) ∈ rest := (ih (i + 1)).mp ⟨e, hrest⟩
        simp [List.mem_cons, hmem]
      | ok ps =>
        have hnomem : ("" : String) ∉ rest := by
          intro hc
          obtain ⟨e, he⟩ := (ih (i + 1)).mpr hc
          rw [hrest] at he
          exact absurd he (by simp)
        simp [List.mem_cons, hnomem, Ne.symm ht, ht]

theorem organizePages_error_iff (pdf : List String) :
    (∃ e, organizePages pdf = Except.error e) ↔ ("" : String) ∈ pdf := by
  rw [← labelPairs_error_iff pdf 0]
  unfold organizePages
  cases h : labelPairs pdf 0 with
  | error e =>
    simp
  | ok ps =>
    simp

/-! ## Claim theorems -/

/-- Claim C1: for an input pair sequence in which label `l` is repeated, the
dict built by lines 79-83 keeps exactly one entry for `l`; the surviving
entry is the one carried by the last occurrence of `l` in the input (first
match over the reversed input); and its position in the output iteration
order is the number of distinct labels occurring strictly before the first
occurrence of `l` — the slot at which `l` was first inserted. -/
theorem C1_last_wins_first_position (input : List (String × Nat)) (l : String)
    (hrep : 2 ≤ (input.map Prod.fst).count l) :
    (buildPages input).countP (fun q => q.1 == l) = 1
    ∧ (buildPages input).find? (fun q => q.1 == l) = input.reverse.find? (fun q => q.1 == l)
    ∧ ((buildPages input).map Prod.fst).indexOf l
        = ((input.map Prod.fst).takeWhile (fun x => x ≠ l)).toFinset.card := by
  have hmem : l ∈ input.map Prod.fst := by
    have hpos : 0 < (input.map Prod.fst).count l := lt_of_lt_of_le (by norm_num) hrep
    exact List.count_pos_iff.mp hpos
  refine ⟨countP_buildPages input l hmem, find?_buildPages input l, ?_⟩
  rw [keys_buildPages, indexOf_dedupFirst (input.map Prod.fst) l hmem, length_dedupFirst]

/-- Witness for C1 at the input with labels a, b, a. -/
theorem C1_witness :
    (buildPages [(("a"), 0), (("b"), 1), (("a"), 2)]).countP (fun q => q.1 == ("a")) = 1
    ∧ (buildPages [(("a"), 0), (("b"), 1), (("a"), 2)]).find? (fun q => q.1 == ("a"))
        = ([(("a"), 0), (("b"), 1), (("a"), 2)] : List (String × Nat)).reverse.find?
            (fun q => q.1 == ("a"))
    ∧ ((buildPages [(("a"), 0), (("b"), 1), (("a"), 2)]).map Prod.fst).indexOf ("a")
        = ((([(("a"), 0), (("b"), 1), (("a"), 2)] : List (String × Nat)).map Prod.fst).takeWhile
            (fun x => x ≠ ("a"))).toFinset.card :=
  C1_last_wins_first_position [(("a"), 0), (("b"), 1), (("a"), 2)] ("a") (by decide)

/-- Claim C2: the writer receives exactly one page per distinct label, so
the output page count equals the number of distinct labels and never
exceeds the source page count. -/
theorem C2_output_length (input : List (String × Nat)) :
    (reorder input).length = (input.map Prod.fst).toFinset.card
    ∧ (reorder input).length ≤ input.length := by
  have hlen : (reorder input).length = (dedupFirst (input.map Prod.fst)).length := by
    rw [reorder, List.length_map]
    rw [show (buildPages input).length = ((buildPages input).map Prod.fst).length from
      (List.length_map _ _).symm]
    rw [keys_buildPages]
  constructor
  · rw [hlen, length_dedupFirst]
  · rw [hlen]
    have h1 := length_dedupFirst_le (input.map Prod.fst)
    rw [List.length_map] at h1
    exact h1

/-- Claim C3: pages are emitted in insertion order of each label's first
occurrence, with no sorting by the label's numeric value: concretely, the
input with labels 2/2 then 1/2 keeps that order, and in general the output
key sequence is exactly the first-occurrence deduplication of the input key
sequence. -/
theorem C3_no_numeric_sort :
    buildPages [(("2/2"), 0), (("1/2"), 1)] = [(("2/2"), 0), (("1/2"), 1)]
    ∧ ∀ input : List (String × Nat),
        (buildPages input).map Prod.fst = dedupFirst (input.map Prod.fst) :=
  ⟨by decide, keys_buildPages⟩

/-- Claim C8: the dict build is idempotent — rebuilding from the already
deduplicated (label, page) pairs changes nothing, and re-running `reorder`
on the dict's own entries returns the same page sequence. -/
theorem C8_reorder_idempotent (input : List (String × Nat)) :
    buildPages (buildPages input) = buildPages input
    ∧ reorder (buildPages input) = reorder input := by
  refine ⟨buildPages_fixed input, ?_⟩
  rw [reorder, reorder, buildPages_fixed input]

/-- Claim C4 (counterexample): the extractor does not fail when the last
line lacks the `/` delimiter — on the one-line text `hello` it succeeds and
returns the whole line — and it does not skip empty lines: on `3/5`
followed by a blank line it returns the prefix of the *last* line (empty),
not of the last non-empty one. -/
theorem C4_counterexample :
    extractLabel ("hello") = Except.ok ("hello")
    ∧ extractLabel ("3/5\n\n") = Except.ok ("") :=
  ⟨rfl, rfl⟩

/-- Claim C4 (amended): the extractor splits the page text into lines,
takes the last line (which may be empty), and returns the substring of that
line before the first `/` — the whole line when no `/` occurs; it fails
with an extraction error exactly when the page has no text at all (empty
text, hence no lines). -/
theorem C4_amended_extractor (text : String) :
    ((∃ e, extractLabel text = Except.error e) ↔ text = ("" : String))
    ∧ (∀ lastLine, (splitlines text).getLast? = some lastLine →
        extractLabel text
          = Except.ok (String.mk (lastLine.data.takeWhile (fun ch => ch ≠ '/')))) :=
  ⟨extractLabel_error_iff text, fun lastLine h => extractLabel_of_getLast text lastLine h⟩

/-- Witness for C4 (amended) on the one-page text `7/9`. -/
theorem C4_witness : extractLabel ("7/9") = Except.ok ("7") :=
  (C4_amended_extractor ("7/9")).2 ("7/9") rfl

/-- Claim C5 (code evaluation at the failing input): on a zero-page source
document the dict build succeeds and the output document written at lines
86-88 has zero pages, but `organize_file` then raises `ZeroDivisionError`
while computing the reduction percentage of line 90, so the run does not
finish without error. -/
theorem C5_zero_page_document :
    organizePages ([] : List String) = Except.ok ([] : List Nat)
    ∧ organize_file ([] : List String) = Except.error ("ZeroDivisionError") :=
  ⟨rfl, rfl⟩

/-- Claim C6 (counterexample): when extraction really fails — a page with
empty text — the exception is uncaught and aborts the whole file instead
of continuing with a fallback label. -/
theorem C6_counterexample :
    organize_file [("")] = Except.error ("IndexError") := rfl

/-- Claim C6 (amended): label extraction raises exactly when some page of
the file has empty text, and then the error propagates and aborts the
file's processing; a page whose last line merely lacks `/` causes no
failure, so such files are processed to completion. -/
theorem C6_amended_abort_iff (pdf : List String) :
    (∃ e, organizePages pdf = Except.error e) ↔ ("" : String) ∈ pdf :=
  organizePages_error_iff pdf

/-- Claim C7 (code evaluation at the failing input): with zero eligible
`.pdf` files the batch does not complete as a no-op — `Pool(0)` raises
`ValueError` — both for an empty directory and for a directory containing
only non-`.pdf` entries. -/
theorem C7_zero_files_crash :
    main_batch ([] : List DirEntry) (fun _ => [])
      = Except.error ("ValueError: Number of processes must be at least 1")
    ∧ main_batch [DirEntry.mk ("notes.txt") true] (fun _ => [])
        = Except.error ("ValueError: Number of processes must be at least 1") :=
  ⟨rfl, rfl⟩

/-- Printing into an erased line at column 0 writes exactly the message. -/
theorem overwriteAt_empty (msg : String) : overwriteAt ("") 0 msg = msg := by
  have h0 : ("" : String).data = ([] : List Char) := rfl
  simp [overwriteAt, h0, String.mk_data]

/-- Claim C9: for `line < num`, with the cursor sitting at column 0 on the
row just below the `num` reserved rows (all on screen), `Logger.log`
rewrites exactly row `line` of the reserved block (0-indexed from its top,
which is screen row `t.row - num`) to the message, leaves every other
screen row unchanged (a single `List.set`), and restores the cursor to its
prior row and column. -/
theorem C9_log_frame (num line : Nat) (msg : String) (t : Term)
    (hline : line < num) (hrow : num ≤ t.row) (hscreen : t.row < t.lines.length)
    (hcol : t.col = 0) :
    Logger.log num line msg t = Term.mk (t.lines.set (t.row - num + line) msg) t.row t.col := by
  have hr : t.row - (num - line) = t.row - num + line := by omega
  unfold Logger.log cursorPrevLine eraseLine printText cursorNextLine
  dsimp only
  simp only [Term.mk.injEq]
  refine ⟨?_, by omega, hcol.symm⟩
  rw [hr]
  have hgd : (t.lines.set (t.row - num + line) ("")).getD (t.row - num + line) ("") = ("") := by
    rw [List.getD_eq_getElem?_getD, List.getElem?_set_self]
    · rfl
    · omega
  rw [hgd, overwriteAt_empty, List.set_set]

/-- Witness for C9: a two-line reserved block on a three-row screen. -/
theorem C9_witness :
    Logger.log 2 0 ("hi") (Term.mk [("aa"), ("bb"), ("cc")] 2 0)
      = Term.mk (([("aa"), ("bb"), ("cc")] : List String).set (2 - 2 + 0) ("hi")) 2 0 :=
  C9_log_frame 2 0 ("hi") (Term.mk [("aa"), ("bb"), ("cc")] 2 0) (by decide) (by decide)
    (by decide) rfl

/-- Claim C10: a page whose text is non-empty and whose last line contains
no `/` character yields no error — `get_real_page_num` returns the entire
last line unchanged as the page's label. -/
theorem C10_whole_line_label (pdf : List String) (i : Nat) (text lastLine : String)
    (hp : pdf[i]? = some text)
    (hl : (splitlines text).getLast? = some lastLine)
    (hs : ∀ ch ∈ lastLine.data, ch ≠ '/') :
    get_real_page_num pdf i = Except.ok lastLine := by
  have htw : lastLine.data.takeWhile (fun ch => ch ≠ '/') = lastLine.data := by
    rw [List.takeWhile_eq_self_iff]
    intro ch hch
    simpa using hs ch hch
  have hex : extractLabel text = Except.ok lastLine := by
    rw [extractLabel_of_getLast text lastLine hl, htw, String.mk_data]
  simp [get_real_page_num, hp, hex]

/-- Witness for C10 on a page whose only line is `hello`. -/
theorem C10_witness : get_real_page_num [("hello")] 0 = Except.ok ("hello") :=
  C10_whole_line_label [("hello")] 0 ("hello") ("hello") rfl rfl (by decide)
